import Mathlib

/-!
Shallow embedding of `src/reporting_pool/reporting_pool.py` (class
`ReportingPool`), the single source module of the `reporting_pool`
repository.

Modelling conventions:
* A raised Python error is a `PyError`; `isException` is `true` exactly when
  the raised object is an instance of `Exception` (the class caught by
  `_function_wrapper_track_failure`), `false` for `BaseException`-only
  errors such as `KeyboardInterrupt` or `SystemExit`.
* A user job function is a value of type `A → Except PyError B`: `Except.ok`
  is a normal return, `Except.error` a raise.
* The shared completion list is a `List Char` over the legend of the source
  (`'Q'` queued, `'R'` running, `'S'` success, `'F'` failed).
* Wall-clock readings are rationals (`ℚ`); the reporter processes are
  modelled as functions of the sequence of observations
  `(shared_completion_list snapshot, elapsed time)` they make at their
  successive wake-ups, which is the scheduling freedom of the real runs.
* `pool.starmap` applies the wrapper to the expanded argument lists in
  submission order and returns the results in that order; since each
  wrapper writes only its own slot (single writer per slot), the
  concurrent execution is linearised as a left-to-right fold here.
-/

/-- Model of a raised Python error.  `isException = true` when the raised
object is an instance of `Exception`, `false` for other `BaseException`s. -/
structure PyError where
  isException : Bool
  msg : String
deriving DecidableEq, Repr

/-- Result of one call of `ReportingPool._function_wrapper`
(reporting_pool.py lines 99-104): the shared completion list after the
call, the sequence of values written to slot `i_job` during the call, and
the value returned to the pool or the error propagated out of the call. -/
structure WrapOut (B : Type) where
  scl : List Char
  writes : List Char
  res : Except PyError B
deriving Repr

/-- Embedding of `ReportingPool._function_wrapper` (lines 99-104): the slot
is set to `'R'`, then `func` is invoked; on a normal return the slot is set
to `'S'` and the result returned; a raised error propagates out unmodified
and no further slot write happens. -/
def function_wrapper {A B : Type} (func : A → Except PyError B)
    (shared_completion_list : List Char) (i_job : Nat) (args : A) : WrapOut B :=
  let scl1 := shared_completion_list.set i_job 'R'
  match func args with
  | Except.ok res => ⟨scl1.set i_job 'S', ['R', 'S'], Except.ok res⟩
  | Except.error e => ⟨scl1, ['R'], Except.error e⟩

/-- Result of one call of `ReportingPool._function_wrapper_track_failure`
(lines 106-116).  `s_diag` is the value of the local variable `s` built on
line 114; that local is never printed or stored by the source, so the
wrapper's actually emitted output `emitted` is the empty list on every
path (the function body contains no print or store of `s`). -/
structure TrackOut (B : Type) where
  scl : List Char
  writes : List Char
  res : Except PyError (Option B)
  s_diag : Option String
  emitted : List String
deriving Repr

/-- Embedding of `ReportingPool._function_wrapper_track_failure`
(lines 106-116): the slot is set to `'R'`, then `func` is invoked; on a
normal return the slot is set to `'S'`; a raised `Exception` is caught,
the result becomes `None`, the diagnostic string is built into the local
`s` (dead, recorded here as `s_diag`) and the slot is set to `'F'`; a
raised error that is not an `Exception` instance escapes the
`except Exception` clause and propagates with no further slot write. -/
def function_wrapper_track_failure {A B : Type} (func : A → Except PyError B)
    (shared_completion_list : List Char) (i_job : Nat) (args : A) : TrackOut B :=
  let scl1 := shared_completion_list.set i_job 'R'
  match func args with
  | Except.ok res => ⟨scl1.set i_job 'S', ['R', 'S'], Except.ok (some res), none, []⟩
  | Except.error e =>
    if e.isException then
      ⟨scl1.set i_job 'F', ['R', 'F'], Except.ok none,
        some ("Job #" ++ toString i_job ++ " failed with error:\n" ++ e.msg ++ "\n"), []⟩
    else
      ⟨scl1, ['R'], Except.error e, none, []⟩

/-- Legal forward transition of the status legend of the class docstring
(lines 23-27): `'Q'` may move to `'R'`, `'R'` may move to `'S'` or `'F'`;
terminal symbols move nowhere. -/
def legalStep (a b : Char) : Bool :=
  (a == 'Q' && b == 'R') || (a == 'R' && (b == 'S' || b == 'F'))

/-- Embedding of line 51, `scl = [int(i) for i in done_list]`. -/
def doneAsInts (done_list : List Bool) : List Nat :=
  done_list.map (fun b => if b then 1 else 0)

/-- Content of one progress line printed by `ReportingPool._print_report`
(lines 49-63).  `est_time_left = none` models the literal NaN string
of line 55; `some q` models the formatted number of line 57. -/
structure Report where
  n_completed : Nat
  n_jobs : Nat
  time_passed : ℚ
  frac_completed : ℚ
  est_time_left : Option ℚ
  slots : List Char
deriving DecidableEq, Repr

/-- Embedding of `ReportingPool._print_report` (lines 49-63).  The ETA is
guarded by `n_completed == 0` (lines 54-57); the completed fraction
`float(n_completed) / len(scl)` of line 60 is not guarded, so when
`done_list` is empty the call raises `ZeroDivisionError`, modelled as the
`Except.error` branch. -/
def print_report (done_list : List Bool) (shared_completion_list : List Char)
    (time_passed : ℚ) : Except String Report :=
  let scl := doneAsInts done_list
  let n_completed := scl.sum
  let est_time_left : Option ℚ :=
    if n_completed = 0 then none
    else some (time_passed / (n_completed : ℚ) * ((scl.length : ℚ) - (n_completed : ℚ)))
  if scl.length = 0 then Except.error "ZeroDivisionError"
  else
    Except.ok ⟨n_completed, scl.length, time_passed,
      (n_completed : ℚ) / (scl.length : ℚ), est_time_left, shared_completion_list⟩

/-- Embedding of line 75 / line 95, `[v in ('S', 'F') for v in
shared_completion_list]`. -/
def doneOf (shared_completion_list : List Char) : List Bool :=
  shared_completion_list.map (fun v => v == 'S' || v == 'F')

/-- One line of output of a reporter process: a progress report, the
traceback of an uncaught `ZeroDivisionError` ending the process, or the
final `Reporting pool finished after ...` line (line 77 / line 97). -/
inductive OutLine where
  | report (r : Report)
  | zeroDivisionError
  | finished
deriving DecidableEq, Repr

/-- Loop of `ReportingPool._periodic_reporting_process` (lines 71-77),
driven by the sequence `obs` of `(shared_completion_list, elapsed time)`
observations the process makes at its successive wake-ups (line 75); the
progress line of an iteration renders the `done_list` of the previous
observation.  When `obs` is exhausted before every slot is terminal the
run is truncated and the flag is `false` (the real process would keep
looping); the flag is `true` when the process terminated. -/
def periodic_go (done_list : List Bool) :
    List (List Char × ℚ) → List OutLine × Bool
  | [] =>
    if done_list.all id then ([OutLine.finished], true) else ([], false)
  | (scl, t) :: obs =>
    if done_list.all id then ([OutLine.finished], true)
    else
      match print_report done_list scl t with
      | Except.error _ => ([OutLine.zeroDivisionError], true)
      | Except.ok r =>
        let p := periodic_go (doneOf scl) obs
        (OutLine.report r :: p.1, p.2)

/-- Embedding of `ReportingPool._periodic_reporting_process`
(lines 65-77) for a batch of `n` jobs: `done_list` starts as `n` copies of
`False` (line 68) and the loop of lines 71-75 runs on the observation
sequence `obs`. -/
def periodic_reporting_process (n : Nat) (obs : List (List Char × ℚ)) :
    List OutLine × Bool :=
  periodic_go (List.replicate n false) obs

/-- Loop of `ReportingPool._on_change_reporting_process` (lines 89-97):
a progress line is printed only when the terminal/non-terminal partition
`done_list` differs from `done_list_prev` (line 90, a `zip` comparison). -/
def on_change_go (done_list done_list_prev : List Bool) :
    List (List Char × ℚ) → List OutLine × Bool
  | [] =>
    if done_list.all id then ([OutLine.finished], true) else ([], false)
  | (scl, t) :: obs =>
    if done_list.all id then ([OutLine.finished], true)
    else
      if (done_list.zip done_list_prev).all (fun p => p.1 == p.2) then
        on_change_go (doneOf scl) done_list_prev obs
      else
        match print_report done_list scl t with
        | Except.error _ => ([OutLine.zeroDivisionError], true)
        | Except.ok r =>
          let p := on_change_go (doneOf scl) done_list obs
          (OutLine.report r :: p.1, p.2)

/-- Embedding of `ReportingPool._on_change_reporting_process`
(lines 79-97): the initial all-`False` report of line 88 is printed
unconditionally before the loop (`scl0` and `t0` are the shared list and
elapsed time it renders), then the loop of lines 89-95 runs on `obs`. -/
def on_change_reporting_process (n : Nat) (scl0 : List Char) (t0 : ℚ)
    (obs : List (List Char × ℚ)) : List OutLine × Bool :=
  let done0 := List.replicate n false
  match print_report done0 scl0 t0 with
  | Except.error _ => ([OutLine.zeroDivisionError], true)
  | Except.ok r =>
    let p := on_change_go done0 done0 obs
    (OutLine.report r :: p.1, p.2)

/-- Sequential linearisation of `pool.starmap(ReportingPool._function_wrapper,
expanded_p_args)` (lines 144-146 with `track_failures == False`): job `i`
runs `_function_wrapper(func, scl, i, *p_args[i])`; results are collected
in submission order; a propagated error aborts the starmap call. -/
def runJobsStrict {A B : Type} (func : A → Except PyError B) :
    List Char → Nat → List A → List Char × Except PyError (List B)
  | scl, _, [] => (scl, Except.ok [])
  | scl, i, a :: rest =>
    let o := function_wrapper func scl i a
    match o.res with
    | Except.error e => (o.scl, Except.error e)
    | Except.ok v =>
      let p := runJobsStrict func o.scl (i + 1) rest
      (p.1, p.2.map (fun l => v :: l))

/-- Sequential linearisation of `pool.starmap` over
`ReportingPool._function_wrapper_track_failure` (lines 141-146 with
`track_failures == True`). -/
def runJobsTrack {A B : Type} (func : A → Except PyError B) :
    List Char → Nat → List A → List Char × Except PyError (List (Option B))
  | scl, _, [] => (scl, Except.ok [])
  | scl, i, a :: rest =>
    let o := function_wrapper_track_failure func scl i a
    match o.res with
    | Except.error e => (o.scl, Except.error e)
    | Except.ok v =>
      let p := runJobsTrack func o.scl (i + 1) rest
      (p.1, p.2.map (fun l => v :: l))

/-- Embedding of the failure scan of `ReportingPool.start` (lines 152-156):
`i_jobs = list(range(len(p_args)))` and every index whose slot reads `'F'`
is collected into `self.failed_i_jobs`. -/
def failedJobsScan (n : Nat) (scl : List Char) : List Nat :=
  (List.range n).filter (fun i => scl.getD i 'Q' == 'F')

/-- Embedding of the summary print of `ReportingPool.start` (lines 157-161):
one line naming the failed job indices when there are any, nothing
otherwise. -/
def failureSummary (failed_i_jobs : List Nat) : List String :=
  if failed_i_jobs.length > 0 then
    ["Job" ++ (if failed_i_jobs.length > 1 then "s" else "") ++ " " ++
      String.intercalate ", " (failed_i_jobs.map toString) ++ " " ++
      (if failed_i_jobs.length > 1 then "were" else "was") ++ " not finished correctly."]
  else []

/-- Embedding of `ReportingPool.start` (lines 118-163) with
`track_failures == False`: the shared completion list starts as one `'Q'`
per argument (lines 125-129) and the pool runs `_function_wrapper` over
all jobs; there is no failure scan in this mode. -/
def start_strict {A B : Type} (func : A → Except PyError B) (p_args : List A) :
    Except PyError (List B) :=
  (runJobsStrict func (List.replicate p_args.length 'Q') 0 p_args).2

/-- Embedding of `ReportingPool.start` (lines 118-163) with
`track_failures == True`: the pool runs `_function_wrapper_track_failure`
over all jobs, then the failure scan of lines 152-156 builds
`failed_i_jobs` and lines 157-161 print the summary.  The value is the
triple `(starmap result, failed_i_jobs, printed summary lines)`. -/
def start_track {A B : Type} (func : A → Except PyError B) (p_args : List A) :
    Except PyError (List (Option B) × List Nat × List String) :=
  let n := p_args.length
  let r := runJobsTrack func (List.replicate n 'Q') 0 p_args
  match r.2 with
  | Except.error e => Except.error e
  | Except.ok res =>
    let failed := failedJobsScan n r.1
    Except.ok (res, failed, failureSummary failed)

/-- Terminal status symbol a slot holds after its job ran to the end of
its wrapper with every raised error an `Exception` instance: `'S'` when
`func` returns normally, `'F'` when it raises. -/
def statusOf {A B : Type} (func : A → Except PyError B) (a : A) : Char :=
  match func a with
  | Except.ok _ => 'S'
  | Except.error _ => 'F'

/-- Whether invoking `func` on `a` raises. -/
def raisesB {A B : Type} (func : A → Except PyError B) (a : A) : Bool :=
  match func a with
  | Except.ok _ => false
  | Except.error _ => true

/-- Embedding of the `ReportingPool` object state: the fields stored by
`__init__` (lines 17-47).  `processes = none` models `processes=None`. -/
structure ReportingPool (A B : Type) where
  processes : Option Int
  func : A → Except PyError B
  p_args : List A
  report_rate : ℚ
  report_on_change : Bool
  track_failures : Bool

/-- Embedding of `ReportingPool.__init__` (lines 17-47): the six arguments
are stored on the object unchanged; the method performs no validation of
any of them. -/
def ReportingPool.init {A B : Type} (func : A → Except PyError B) (p_args : List A)
    (processes : Option Int) (report_rate : ℚ)
    (report_on_change track_failures : Bool) : ReportingPool A B :=
  ⟨processes, func, p_args, report_rate, report_on_change, track_failures⟩

/-- Observable effects of `ReportingPool.start` (lines 118-163), in
program order: one slot allocation per job (`shared_completion_list.append('Q')`,
line 128), the reporter process start (line 138), the pool running a job
(line 146), the `ValueError` raised by `multiprocessing.Pool` when
`processes` is not at least 1 (line 145), and the normal return
(line 163). -/
inductive StartEv where
  | slotAlloc (i : Nat)
  | reporterStart
  | jobRun (i : Nat)
  | poolValueError
  | returned
deriving DecidableEq, Repr

/-- Effect order of `ReportingPool.start` (lines 118-163): slots for all
jobs are allocated first (lines 125-129), the reporter process is started
next (lines 131-138) — `report_rate` is only handed to the child process
and never examined in the caller, so a non-positive value is never
rejected — and only then is the pool constructed (line 145), which raises
`ValueError` when `processes` is given and not at least 1; otherwise every
job runs and `start` returns.  Job outcomes are abstracted to `jobRun`
events here; this definition captures the order of effects for the
configuration-validation claims. -/
def start_effect_trace {A B : Type} (pool : ReportingPool A B) : List StartEv :=
  (List.range pool.p_args.length).map StartEv.slotAlloc ++ [StartEv.reporterStart] ++
    match pool.processes with
    | some p =>
      if p ≤ 0 then [StartEv.poolValueError]
      else (List.range pool.p_args.length).map StartEv.jobRun ++ [StartEv.returned]
    | none => (List.range pool.p_args.length).map StartEv.jobRun ++ [StartEv.returned]

/-- Concrete job function that always raises an `Exception`. -/
def funcBoom : Unit → Except PyError Nat := fun _ => Except.error ⟨true, "boom"⟩

/-- Concrete job function that always raises a `BaseException` that is not
an `Exception` instance (a `KeyboardInterrupt`). -/
def funcInterrupt : Unit → Except PyError Nat :=
  fun _ => Except.error ⟨false, "KeyboardInterrupt"⟩

/-- Concrete job function mirroring `_reporting_pool_test_func_wof`
(lines 166-168, without the sleep): squares its input. -/
def funcSq : Nat → Except PyError Nat := fun v => Except.ok (v * v)

/-- Concrete job function mirroring `_reporting_pool_test_func_wf`
(lines 171-175, without the sleep): raises `ValueError` on multiples of 6,
squares its input otherwise. -/
def funcSqFail : Nat → Except PyError Nat :=
  fun v => if v % 6 = 0 then Except.error ⟨true, "ValueError"⟩ else Except.ok (v * v)

/-- Concrete job function that returns 0. -/
def funcOkU : Unit → Except PyError Nat := fun _ => Except.ok 0

/-- Number of progress-report lines in a reporter output. -/
def numReports (out : List OutLine) : Nat :=
  out.countP (fun l => match l with | OutLine.report _ => true | _ => false)

/-- Whether an output line is a progress report showing every job
completed. -/
def isFullReportLine : OutLine → Bool
  | OutLine.report r => r.n_completed == r.n_jobs
  | _ => false

/-- Payload of the progress line `_print_report` prints when the snapshot
is non-empty (lines 58-63). -/
def reportOf (done_list : List Bool) (scl : List Char) (t : ℚ) : Report :=
  ⟨(doneAsInts done_list).sum, done_list.length, t,
    (((doneAsInts done_list).sum : ℚ)) / ((done_list.length : ℚ)),
    if (doneAsInts done_list).sum = 0 then none
    else some (t / (((doneAsInts done_list).sum : ℚ)) *
      ((done_list.length : ℚ) - (((doneAsInts done_list).sum : ℚ)))), scl⟩

/-- Concrete configuration with an invalid worker count (`processes=-1`)
and one job. -/
def poolBadWorkers : ReportingPool Unit Nat := ⟨some (-1), funcOkU, [()], 60, false, false⟩

/-- Concrete configuration with a non-positive `report_rate` (0) and one
job. -/
def poolZeroRate : ReportingPool Unit Nat := ⟨none, funcOkU, [()], 0, false, false⟩

theorem getD_set_self (l : List Char) (i : Nat) (c d : Char) (h : i < l.length) :
    (l.set i c).getD i d = c := by
  simp [List.getD_eq_getElem?_getD, List.getElem?_set_self h]

theorem getD_set_other (l : List Char) (i j : Nat) (c d : Char) (h : i ≠ j) :
    (l.set i c).getD j d = l.getD j d := by
  simp [List.getD_eq_getElem?_getD, List.getElem?_set_ne h]

/-- C1: for every job index, the sequence of values a wrapper writes to that
job's slot is monotonic along 'Q' → 'R' → terminal: both the strict and the
failure-tracking wrapper write 'R' first (before invoking the user function)
and at most one terminal symbol ('S' or 'F') afterwards, and the whole write
sequence starting from the initial 'Q' follows only legal forward
transitions, so no write moves a slot back from a terminal symbol or
between 'S' and 'F'. -/
theorem c1_wrapper_writes_monotonic {A B : Type} (func : A → Except PyError B)
    (scl : List Char) (i : Nat) (a : A) :
    ((function_wrapper func scl i a).writes.head? = some 'R' ∧
      List.Chain (fun x y => legalStep x y = true) 'Q' (function_wrapper func scl i a).writes ∧
      (function_wrapper func scl i a).writes.tail.length ≤ 1 ∧
      ∀ c ∈ (function_wrapper func scl i a).writes.tail, c = 'S' ∨ c = 'F') ∧
    ((function_wrapper_track_failure func scl i a).writes.head? = some 'R' ∧
      List.Chain (fun x y => legalStep x y = true) 'Q'
        (function_wrapper_track_failure func scl i a).writes ∧
      (function_wrapper_track_failure func scl i a).writes.tail.length ≤ 1 ∧
      ∀ c ∈ (function_wrapper_track_failure func scl i a).writes.tail, c = 'S' ∨ c = 'F') := by
  have chainQRS : List.Chain (fun x y => legalStep x y = true) 'Q' ['R', 'S'] :=
    List.Chain.cons (by decide) (List.Chain.cons (by decide) List.Chain.nil)
  have chainQRF : List.Chain (fun x y => legalStep x y = true) 'Q' ['R', 'F'] :=
    List.Chain.cons (by decide) (List.Chain.cons (by decide) List.Chain.nil)
  have chainQR : List.Chain (fun x y => legalStep x y = true) 'Q' ['R'] :=
    List.Chain.cons (by decide) List.Chain.nil
  cases hf : func a with
  | ok v =>
    have e1 : (function_wrapper func scl i a).writes = ['R', 'S'] := by
      simp [function_wrapper, hf]
    have e2 : (function_wrapper_track_failure func scl i a).writes = ['R', 'S'] := by
      simp [function_wrapper_track_failure, hf]
    rw [e1, e2]
    exact ⟨⟨rfl, chainQRS, by decide, by decide⟩, ⟨rfl, chainQRS, by decide, by decide⟩⟩
  | error e =>
    have e1 : (function_wrapper func scl i a).writes = ['R'] := by
      simp [function_wrapper, hf]
    cases he : e.isException with
    | true =>
      have e2 : (function_wrapper_track_failure func scl i a).writes = ['R', 'F'] := by
        simp [function_wrapper_track_failure, hf, he]
      rw [e1, e2]
      exact ⟨⟨rfl, chainQR, by decide, by decide⟩, ⟨rfl, chainQRF, by decide, by decide⟩⟩
    | false =>
      have e2 : (function_wrapper_track_failure func scl i a).writes = ['R'] := by
        simp [function_wrapper_track_failure, hf, he]
      rw [e1, e2]
      exact ⟨⟨rfl, chainQR, by decide, by decide⟩, ⟨rfl, chainQR, by decide, by decide⟩⟩

/-- C9 (code bug): in isolating mode, when the user function raises, the
wrapper builds the diagnostic text (job index + failure text) only into the
dead local `s` (line 114) and never prints or stores it: at the concrete
failing input the wrapper's emitted output is empty, and the whole
`start` run records only the bare index (the summary line names job 0 but
contains no failure text), so no observable diagnostic carrying the
failure text exists anywhere. -/
theorem c9_diagnostic_never_recorded :
    (function_wrapper_track_failure funcBoom ['Q'] 0 ()).emitted = [] ∧
    (function_wrapper_track_failure funcBoom ['Q'] 0 ()).s_diag =
      some "Job #0 failed with error:\nboom\n" ∧
    (function_wrapper_track_failure funcBoom ['Q'] 0 ()).scl = ['F'] ∧
    (function_wrapper_track_failure funcBoom ['Q'] 0 ()).res = Except.ok none ∧
    start_track funcBoom [()] =
      Except.ok ([none], [0], ["Job 0 was not finished correctly."]) :=
  ⟨rfl, rfl, rfl, rfl, rfl⟩

/-- C10: the failure-tracking wrapper catches only `Exception` instances:
a raised error that is a `BaseException` but not an `Exception` propagates
out of the wrapper, the slot is left at 'R' (the job is not marked
Failed), the write sequence is just ['R'], and no diagnostic local is
built. -/
theorem c10_non_exception_propagates {A B : Type} (func : A → Except PyError B)
    (scl : List Char) (i : Nat) (a : A) (e : PyError)
    (he : func a = Except.error e) (hne : e.isException = false)
    (hi : i < scl.length) :
    (function_wrapper_track_failure func scl i a).res = Except.error e ∧
    (function_wrapper_track_failure func scl i a).scl.getD i 'Q' = 'R' ∧
    (function_wrapper_track_failure func scl i a).writes = ['R'] ∧
    (function_wrapper_track_failure func scl i a).s_diag = none := by
  have h1 : function_wrapper_track_failure func scl i a =
      ⟨scl.set i 'R', ['R'], Except.error e, none, []⟩ := by
    simp [function_wrapper_track_failure, he, hne]
  rw [h1]
  exact ⟨rfl, getD_set_self scl i 'R' 'Q' hi, rfl, rfl⟩

theorem c10_non_exception_propagates_witness :
    (function_wrapper_track_failure funcInterrupt ['Q'] 0 ()).res =
      Except.error ⟨false, "KeyboardInterrupt"⟩ :=
  (c10_non_exception_propagates funcInterrupt ['Q'] 0 ()
    ⟨false, "KeyboardInterrupt"⟩ rfl rfl (by decide)).1

/-- C3 counterexample: in strict mode (`_function_wrapper`), a user
function that raises leaves the job slot at 'R' — not at a terminal
symbol — while the error propagates, so the slot never satisfies the
reporter's all-terminal condition. -/
theorem c3_counterexample :
    (function_wrapper funcBoom ['Q'] 0 ()).scl = ['R'] ∧
    (function_wrapper funcBoom ['Q'] 0 ()).res = Except.error ⟨true, "boom"⟩ ∧
    (doneOf (function_wrapper funcBoom ['Q'] 0 ()).scl).all id = false :=
  ⟨rfl, rfl, rfl⟩

/-- C3 (amended): only the failure-tracking wrapper guarantees a terminal
slot on every path: it ends the slot at 'S' or 'F' whenever the user
function returns or raises an `Exception` instance; the strict wrapper
ends the slot at 'S' when the function returns normally, but when the
function raises it propagates the error and leaves the slot at 'R'. -/
theorem c3_terminal_slot_split {A B : Type} (func : A → Except PyError B)
    (scl : List Char) (i : Nat) (a : A) (hi : i < scl.length) :
    ((∀ e, func a = Except.error e → e.isException = true) →
      (function_wrapper_track_failure func scl i a).scl.getD i 'Q' = 'S' ∨
      (function_wrapper_track_failure func scl i a).scl.getD i 'Q' = 'F') ∧
    (∀ v, func a = Except.ok v →
      (function_wrapper func scl i a).scl.getD i 'Q' = 'S') ∧
    (∀ e, func a = Except.error e →
      (function_wrapper func scl i a).scl.getD i 'Q' = 'R' ∧
      (function_wrapper func scl i a).res = Except.error e) := by
  refine ⟨?_, ?_, ?_⟩
  · intro hexc
    cases hf : func a with
    | ok v =>
      left
      have e1 : (function_wrapper_track_failure func scl i a).scl = scl.set i 'S' := by
        simp [function_wrapper_track_failure, hf, List.set_set]
      rw [e1]
      exact getD_set_self scl i 'S' 'Q' hi
    | error e =>
      right
      have e1 : (function_wrapper_track_failure func scl i a).scl = scl.set i 'F' := by
        simp [function_wrapper_track_failure, hf, hexc e hf, List.set_set]
      rw [e1]
      exact getD_set_self scl i 'F' 'Q' hi
  · intro v hv
    have e1 : (function_wrapper func scl i a).scl = scl.set i 'S' := by
      simp [function_wrapper, hv, List.set_set]
    rw [e1]
    exact getD_set_self scl i 'S' 'Q' hi
  · intro e he
    refine ⟨?_, ?_⟩
    · have e1 : (function_wrapper func scl i a).scl = scl.set i 'R' := by
        simp [function_wrapper, he]
      rw [e1]
      exact getD_set_self scl i 'R' 'Q' hi
    · simp [function_wrapper, he]

theorem c3_terminal_slot_split_witness :
    (function_wrapper_track_failure funcBoom ['Q'] 0 ()).scl.getD 0 'Q' = 'S' ∨
    (function_wrapper_track_failure funcBoom ['Q'] 0 ()).scl.getD 0 'Q' = 'F' :=
  (c3_terminal_slot_split funcBoom ['Q'] 0 () (by decide)).1
    (fun e h => by
      simp only [funcBoom, Except.error.injEq] at h
      rw [← h])

theorem print_report_eq_ok (done_list : List Bool) (scl : List Char) (t : ℚ)
    (h : done_list ≠ []) :
    print_report done_list scl t = Except.ok (reportOf done_list scl t) := by
  have hlen : (doneAsInts done_list).length = done_list.length := by
    simp [doneAsInts]
  have h0 : ¬ (doneAsInts done_list).length = 0 := by
    rw [hlen]
    intro hl
    exact h (List.length_eq_zero.mp hl)
  simp [print_report, reportOf, h0, hlen, h]

/-- C6: for every snapshot with at least one slot, `_print_report` never
raises and never divides by zero in the ETA computation: when the number of
completed jobs is zero the estimated time left is the explicit NaN
marker (here `none`), and when it is positive it is exactly
`elapsed / completed * remaining`. -/
theorem c6_eta_never_divides_by_zero (done_list : List Bool) (scl : List Char)
    (t : ℚ) (h : done_list ≠ []) :
    (print_report done_list scl t).toOption.map Report.est_time_left =
      some (if (doneAsInts done_list).sum = 0 then none
        else some (t / (((doneAsInts done_list).sum : ℚ)) *
          ((done_list.length : ℚ) - (((doneAsInts done_list).sum : ℚ))))) := by
  rw [print_report_eq_ok done_list scl t h]
  rfl

theorem c6_eta_never_divides_by_zero_witness :
    (print_report [false] ['Q'] 5).toOption.map Report.est_time_left = some none := by
  have h := c6_eta_never_divides_by_zero [false] ['Q'] 5 (by decide)
  simpa using h

/-- C4 (code bug): for a batch of zero jobs, `start` does return an empty
result list, but the reporter does not behave as specified: the periodic
policy prints no progress report at all (`all([])` is true, the loop body
is skipped, only the finished line is printed), and the on-change policy
raises `ZeroDivisionError` inside its unconditional initial
`_print_report` call (`float(0)/len([])`), so no 100-percent-of-0-jobs report
exists in either policy. -/
theorem c4_zero_jobs_code_behavior :
    start_strict funcOkU [] = Except.ok [] ∧
    start_track funcOkU [] = Except.ok ([], [], []) ∧
    periodic_reporting_process 0 [] = ([OutLine.finished], true) ∧
    numReports (periodic_reporting_process 0 []).1 = 0 ∧
    on_change_reporting_process 0 [] 0 [] = ([OutLine.zeroDivisionError], true) :=
  ⟨rfl, rfl, rfl, rfl, rfl⟩

theorem ne_nil_of_not_all (done_list : List Bool)
    (hall : ¬ done_list.all id = true) : done_list ≠ [] := by
  intro h
  subst h
  exact hall rfl

theorem doneAsInts_sum_le (done_list : List Bool) :
    (doneAsInts done_list).sum ≤ done_list.length := by
  induction done_list with
  | nil => simp [doneAsInts]
  | cons b l ih =>
    have hcons : doneAsInts (b :: l) = (if b then 1 else 0) :: doneAsInts l := rfl
    rw [hcons, List.sum_cons, List.length_cons]
    cases b <;> simp <;> omega

theorem doneAsInts_sum_lt (done_list : List Bool) (h : done_list.all id = false) :
    (doneAsInts done_list).sum < done_list.length := by
  induction done_list with
  | nil => simp at h
  | cons b l ih =>
    have hcons : doneAsInts (b :: l) = (if b then 1 else 0) :: doneAsInts l := rfl
    rw [hcons, List.sum_cons, List.length_cons]
    cases b with
    | false =>
      have := doneAsInts_sum_le l
      simp
      omega
    | true =>
      have hl : l.all id = false := by simpa using h
      have := ih hl
      simp
      omega

theorem getLast?_cons_of_getLast? {α : Type} (a x : α) (l : List α)
    (h : l.getLast? = some x) : (a :: l).getLast? = some x := by
  cases l with
  | nil => simp at h
  | cons b m =>
    rw [List.getLast?_cons_cons]
    exact h

theorem periodic_go_done (done_list : List Bool) (obs : List (List Char × ℚ))
    (hall : done_list.all id = true) :
    periodic_go done_list obs = ([OutLine.finished], true) := by
  cases obs with
  | nil => simp only [periodic_go, if_pos hall]
  | cons ob obs =>
    obtain ⟨scl, t⟩ := ob
    simp only [periodic_go, if_pos hall]

theorem periodic_go_nil_not_done (done_list : List Bool)
    (hall : ¬ done_list.all id = true) :
    periodic_go done_list [] = ([], false) := by
  simp only [periodic_go, if_neg hall]

theorem periodic_go_cons_not_done (done_list : List Bool) (scl : List Char)
    (t : ℚ) (obs : List (List Char × ℚ)) (hall : ¬ done_list.all id = true) :
    periodic_go done_list ((scl, t) :: obs) =
      (OutLine.report (reportOf done_list scl t) :: (periodic_go (doneOf scl) obs).1,
        (periodic_go (doneOf scl) obs).2) := by
  have hne := ne_nil_of_not_all done_list hall
  simp only [periodic_go, if_neg hall, print_report_eq_ok done_list scl t hne]

theorem periodic_go_invariant (obs : List (List Char × ℚ)) :
    ∀ done_list : List Bool,
      (∀ r, OutLine.report r ∈ (periodic_go done_list obs).1 →
        r.n_completed < r.n_jobs) ∧
      ((periodic_go done_list obs).2 = true →
        (periodic_go done_list obs).1.getLast? = some OutLine.finished) := by
  induction obs with
  | nil =>
    intro done_list
    by_cases hall : done_list.all id = true
    · rw [periodic_go_done done_list [] hall]
      exact ⟨fun r hr => by simp at hr, fun _ => rfl⟩
    · rw [periodic_go_nil_not_done done_list hall]
      exact ⟨fun r hr => by simp at hr, fun h2 => by simp at h2⟩
  | cons ob obs ih =>
    obtain ⟨scl, t⟩ := ob
    intro done_list
    by_cases hall : done_list.all id = true
    · rw [periodic_go_done done_list _ hall]
      exact ⟨fun r hr => by simp at hr, fun _ => rfl⟩
    · rw [periodic_go_cons_not_done done_list scl t obs hall]
      constructor
      · intro r hr
        simp only [List.mem_cons] at hr
        cases hr with
        | inl h0 =>
          injection h0 with h0
          subst h0
          have hallf : done_list.all id = false := by
            cases hval : done_list.all id
            · rfl
            · exact absurd hval hall
          exact doneAsInts_sum_lt done_list hallf
        | inr hrest => exact (ih (doneOf scl)).1 r hrest
      · intro h2
        exact getLast?_cons_of_getLast? _ _ _ ((ih (doneOf scl)).2 h2)

theorem on_change_go_done (done_list done_list_prev : List Bool)
    (obs : List (List Char × ℚ)) (hall : done_list.all id = true) :
    on_change_go done_list done_list_prev obs = ([OutLine.finished], true) := by
  cases obs with
  | nil => simp only [on_change_go, if_pos hall]
  | cons ob obs =>
    obtain ⟨scl, t⟩ := ob
    simp only [on_change_go, if_pos hall]

theorem on_change_go_nil_not_done (done_list done_list_prev : List Bool)
    (hall : ¬ done_list.all id = true) :
    on_change_go done_list done_list_prev [] = ([], false) := by
  simp only [on_change_go, if_neg hall]

theorem on_change_go_cons_same (done_list done_list_prev : List Bool)
    (scl : List Char) (t : ℚ) (obs : List (List Char × ℚ))
    (hall : ¬ done_list.all id = true)
    (hzip : (done_list.zip done_list_prev).all (fun p => p.1 == p.2) = true) :
    on_change_go done_list done_list_prev ((scl, t) :: obs) =
      on_change_go (doneOf scl) done_list_prev obs := by
  simp only [on_change_go, if_neg hall, if_pos hzip]

theorem on_change_go_cons_diff (done_list done_list_prev : List Bool)
    (scl : List Char) (t : ℚ) (obs : List (List Char × ℚ))
    (hall : ¬ done_list.all id = true)
    (hzip : ¬ (done_list.zip done_list_prev).all (fun p => p.1 == p.2) = true) :
    on_change_go done_list done_list_prev ((scl, t) :: obs) =
      (OutLine.report (reportOf done_list scl t) ::
        (on_change_go (doneOf scl) done_list obs).1,
        (on_change_go (doneOf scl) done_list obs).2) := by
  have hne := ne_nil_of_not_all done_list hall
  simp only [on_change_go, if_neg hall, if_neg hzip,
    print_report_eq_ok done_list scl t hne]

theorem on_change_go_invariant (obs : List (List Char × ℚ)) :
    ∀ done_list done_list_prev : List Bool,
      (∀ r, OutLine.report r ∈ (on_change_go done_list done_list_prev obs).1 →
        r.n_completed < r.n_jobs) ∧
      ((on_change_go done_list done_list_prev obs).2 = true →
        (on_change_go done_list done_list_prev obs).1.getLast? =
          some OutLine.finished) := by
  induction obs with
  | nil =>
    intro done_list done_list_prev
    by_cases hall : done_list.all id = true
    · rw [on_change_go_done done_list done_list_prev [] hall]
      exact ⟨fun r hr => by simp at hr, fun _ => rfl⟩
    · rw [on_change_go_nil_not_done done_list done_list_prev hall]
      exact ⟨fun r hr => by simp at hr, fun h2 => by simp at h2⟩
  | cons ob obs ih =>
    obtain ⟨scl, t⟩ := ob
    intro done_list done_list_prev
    by_cases hall : done_list.all id = true
    · rw [on_change_go_done done_list done_list_prev _ hall]
      exact ⟨fun r hr => by simp at hr, fun _ => rfl⟩
    · by_cases hzip : (done_list.zip done_list_prev).all (fun p => p.1 == p.2) = true
      · rw [on_change_go_cons_same done_list done_list_prev scl t obs hall hzip]
        exact ih (doneOf scl) done_list_prev
      · rw [on_change_go_cons_diff done_list done_list_prev scl t obs hall hzip]
        constructor
        · intro r hr
          simp only [List.mem_cons] at hr
          cases hr with
          | inl h0 =>
            injection h0 with h0
            subst h0
            have hallf : done_list.all id = false := by
              cases hval : done_list.all id
              · rfl
              · exact absurd hval hall
            exact doneAsInts_sum_lt done_list hallf
          | inr hrest => exact (ih (doneOf scl) done_list).1 r hrest
        · intro h2
          exact getLast?_cons_of_getLast? _ _ _ ((ih (doneOf scl) done_list).2 h2)

/-- C5 counterexample: a one-job batch whose job succeeds before the second
wake-up: both reporter policies terminate (flag `true`), each prints
exactly one progress report, and neither output contains any progress
report showing all jobs completed — the only thing printed after the
all-terminal observation is the completion-time summary line. -/
theorem c5_counterexample :
    (periodic_reporting_process 1 [(['S'], 1)]).2 = true ∧
    numReports (periodic_reporting_process 1 [(['S'], 1)]).1 = 1 ∧
    (periodic_reporting_process 1 [(['S'], 1)]).1.countP isFullReportLine = 0 ∧
    (on_change_reporting_process 1 ['Q'] 0 [(['S'], 1)]).2 = true ∧
    numReports (on_change_reporting_process 1 ['Q'] 0 [(['S'], 1)]).1 = 1 ∧
    (on_change_reporting_process 1 ['Q'] 0 [(['S'], 1)]).1.countP isFullReportLine = 0 :=
  ⟨rfl, rfl, rfl, rfl, rfl, rfl⟩

/-- C5 (amended): after observing that all slots are terminal, neither
reporter policy prints a final progress report reflecting the all-terminal
state: every progress report either policy ever prints shows strictly
fewer than all jobs completed, and when a policy's loop terminates its
output ends with the completion-time summary line (the same final line for
both policies), which is the only thing printed after the all-terminal
observation. -/
theorem c5_no_final_full_report (n : Nat) (scl0 : List Char) (t0 : ℚ)
    (obs : List (List Char × ℚ)) (hn : 1 ≤ n) :
    (∀ r, OutLine.report r ∈ (periodic_reporting_process n obs).1 →
      r.n_completed < r.n_jobs) ∧
    ((periodic_reporting_process n obs).2 = true →
      (periodic_reporting_process n obs).1.getLast? = some OutLine.finished) ∧
    (∀ r, OutLine.report r ∈ (on_change_reporting_process n scl0 t0 obs).1 →
      r.n_completed < r.n_jobs) ∧
    ((on_change_reporting_process n scl0 t0 obs).2 = true →
      (on_change_reporting_process n scl0 t0 obs).1.getLast? =
        some OutLine.finished) := by
  have hper := periodic_go_invariant obs (List.replicate n false)
  have hrep_ne : (List.replicate n false) ≠ ([] : List Bool) := by
    intro h
    have := congrArg List.length h
    simp at this
    omega
  have hoc := on_change_go_invariant obs (List.replicate n false) (List.replicate n false)
  have hentry : on_change_reporting_process n scl0 t0 obs =
      (OutLine.report (reportOf (List.replicate n false) scl0 t0) ::
        (on_change_go (List.replicate n false) (List.replicate n false) obs).1,
        (on_change_go (List.replicate n false) (List.replicate n false) obs).2) := by
    simp only [on_change_reporting_process,
      print_report_eq_ok (List.replicate n false) scl0 t0 hrep_ne]
  refine ⟨hper.1, hper.2, ?_, ?_⟩
  · intro r hr
    rw [hentry] at hr
    simp only [List.mem_cons] at hr
    cases hr with
    | inl h0 =>
      injection h0 with h0
      subst h0
      have hsum : (doneAsInts (List.replicate n false)).sum = 0 := by
        simp [doneAsInts]
      show (reportOf (List.replicate n false) scl0 t0).n_completed <
        (reportOf (List.replicate n false) scl0 t0).n_jobs
      simpa [reportOf, hsum] using hn
    | inr hrest => exact hoc.1 r hrest
  · intro h2
    rw [hentry] at h2
    rw [hentry]
    exact getLast?_cons_of_getLast? _ _ _ (hoc.2 h2)

theorem c5_no_final_full_report_witness :
    (periodic_reporting_process 1 [(['S'], 1)]).1.getLast? =
      some OutLine.finished :=
  (c5_no_final_full_report 1 ['Q'] 0 [(['S'], 1)] (by decide)).2.1 (by decide)

/-- C7 counterexample: invalid configurations are not rejected before jobs
are submitted and side effects happen first.  With an invalid worker count
(`processes=-1`) the `ValueError` surfaces only at pool construction,
after the slot has been allocated and the reporter started; with a
non-positive `report_rate` (0) nothing is rejected at all: the slot is
allocated, the reporter started, the job submitted and run, and `start`
returns normally. -/
theorem c7_counterexample :
    start_effect_trace poolBadWorkers =
      [StartEv.slotAlloc 0, StartEv.reporterStart, StartEv.poolValueError] ∧
    start_effect_trace poolZeroRate =
      [StartEv.slotAlloc 0, StartEv.reporterStart, StartEv.jobRun 0,
        StartEv.returned] :=
  ⟨rfl, rfl⟩

/-- C7 (amended): the code performs no configuration validation.  For
every configuration — valid or not — `start` allocates every job slot and
starts the reporter first; whenever the pool construction succeeds (the
worker count is absent or positive) every job is submitted and run
regardless of `report_rate` (including non-positive values, which only
break the reporter child process); an invalid worker count raises only at
pool construction, after those side effects. -/
theorem c7_no_config_validation {A B : Type} (pool : ReportingPool A B) :
    (∀ i, i < pool.p_args.length →
      StartEv.slotAlloc i ∈ start_effect_trace pool) ∧
    StartEv.reporterStart ∈ start_effect_trace pool ∧
    ((∀ p, pool.processes = some p → 0 < p) →
      ∀ i, i < pool.p_args.length →
        StartEv.jobRun i ∈ start_effect_trace pool) := by
  unfold start_effect_trace
  refine ⟨?_, ?_, ?_⟩
  · intro i hi
    refine List.mem_append_left _ (List.mem_append_left _ ?_)
    exact List.mem_map.mpr ⟨i, List.mem_range.mpr hi, rfl⟩
  · exact List.mem_append_left _ (List.mem_append_right _ (by simp))
  · intro hpos i hi
    refine List.mem_append_right _ ?_
    cases hp : pool.processes with
    | none =>
      exact List.mem_append_left _ (List.mem_map.mpr ⟨i, List.mem_range.mpr hi, rfl⟩)
    | some p =>
      have hple : ¬ p ≤ 0 := by
        have := hpos p hp
        omega
      simp only [if_neg hple]
      exact List.mem_append_left _ (List.mem_map.mpr ⟨i, List.mem_range.mpr hi, rfl⟩)

theorem c7_no_config_validation_witness :
    StartEv.jobRun 0 ∈ start_effect_trace poolZeroRate :=
  (c7_no_config_validation poolZeroRate).2.2
    (fun p hp => by simp [poolZeroRate] at hp) 0 (by decide)

theorem strict_wrapper_ok {A B : Type} (func : A → Except PyError B) (scl : List Char)
    (i : Nat) (a : A) (v : B) (hf : func a = Except.ok v) :
    function_wrapper func scl i a = ⟨scl.set i 'S', ['R', 'S'], Except.ok v⟩ := by
  simp [function_wrapper, hf, List.set_set]

theorem strict_wrapper_err {A B : Type} (func : A → Except PyError B) (scl : List Char)
    (i : Nat) (a : A) (e : PyError) (hf : func a = Except.error e) :
    function_wrapper func scl i a = ⟨scl.set i 'R', ['R'], Except.error e⟩ := by
  simp [function_wrapper, hf]

theorem track_wrapper_ok {A B : Type} (func : A → Except PyError B) (scl : List Char)
    (i : Nat) (a : A) (v : B) (hf : func a = Except.ok v) :
    function_wrapper_track_failure func scl i a =
      ⟨scl.set i 'S', ['R', 'S'], Except.ok (some v), none, []⟩ := by
  simp [function_wrapper_track_failure, hf, List.set_set]

theorem track_wrapper_exc {A B : Type} (func : A → Except PyError B) (scl : List Char)
    (i : Nat) (a : A) (e : PyError) (hf : func a = Except.error e)
    (he : e.isException = true) :
    function_wrapper_track_failure func scl i a =
      ⟨scl.set i 'F', ['R', 'F'], Except.ok none,
        some ("Job #" ++ toString i ++ " failed with error:\n" ++ e.msg ++ "\n"), []⟩ := by
  simp [function_wrapper_track_failure, hf, he, List.set_set]

theorem track_wrapper_base {A B : Type} (func : A → Except PyError B) (scl : List Char)
    (i : Nat) (a : A) (e : PyError) (hf : func a = Except.error e)
    (he : e.isException = false) :
    function_wrapper_track_failure func scl i a =
      ⟨scl.set i 'R', ['R'], Except.error e, none, []⟩ := by
  simp [function_wrapper_track_failure, hf, he]

theorem runJobsStrict_cons_ok {A B : Type} (func : A → Except PyError B)
    (scl : List Char) (i : Nat) (a : A) (rest : List A) (v : B)
    (hf : func a = Except.ok v) :
    runJobsStrict func scl i (a :: rest) =
      ((runJobsStrict func (scl.set i 'S') (i + 1) rest).1,
        (runJobsStrict func (scl.set i 'S') (i + 1) rest).2.map
          (fun l => v :: l)) := by
  simp only [runJobsStrict, strict_wrapper_ok func scl i a v hf]

theorem runJobsStrict_cons_ok_snd {A B : Type} (func : A → Except PyError B)
    (scl : List Char) (i : Nat) (a : A) (rest : List A) (v : B)
    (hf : func a = Except.ok v) :
    (runJobsStrict func scl i (a :: rest)).2 =
      (runJobsStrict func (scl.set i 'S') (i + 1) rest).2.map (fun l => v :: l) := by
  rw [runJobsStrict_cons_ok func scl i a rest v hf]

theorem runJobsStrict_cons_err {A B : Type} (func : A → Except PyError B)
    (scl : List Char) (i : Nat) (a : A) (rest : List A) (e : PyError)
    (hf : func a = Except.error e) :
    runJobsStrict func scl i (a :: rest) = (scl.set i 'R', Except.error e) := by
  simp only [runJobsStrict, strict_wrapper_err func scl i a e hf]

theorem runJobsTrack_cons_ok {A B : Type} (func : A → Except PyError B)
    (scl : List Char) (i : Nat) (a : A) (rest : List A) (v : B)
    (hf : func a = Except.ok v) :
    runJobsTrack func scl i (a :: rest) =
      ((runJobsTrack func (scl.set i 'S') (i + 1) rest).1,
        (runJobsTrack func (scl.set i 'S') (i + 1) rest).2.map
          (fun l => some v :: l)) := by
  simp only [runJobsTrack, track_wrapper_ok func scl i a v hf]

theorem runJobsTrack_cons_ok_fst {A B : Type} (func : A → Except PyError B)
    (scl : List Char) (i : Nat) (a : A) (rest : List A) (v : B)
    (hf : func a = Except.ok v) :
    (runJobsTrack func scl i (a :: rest)).1 =
      (runJobsTrack func (scl.set i 'S') (i + 1) rest).1 := by
  rw [runJobsTrack_cons_ok func scl i a rest v hf]

theorem runJobsTrack_cons_ok_snd {A B : Type} (func : A → Except PyError B)
    (scl : List Char) (i : Nat) (a : A) (rest : List A) (v : B)
    (hf : func a = Except.ok v) :
    (runJobsTrack func scl i (a :: rest)).2 =
      (runJobsTrack func (scl.set i 'S') (i + 1) rest).2.map
        (fun l => some v :: l) := by
  rw [runJobsTrack_cons_ok func scl i a rest v hf]

theorem runJobsTrack_cons_exc {A B : Type} (func : A → Except PyError B)
    (scl : List Char) (i : Nat) (a : A) (rest : List A) (e : PyError)
    (hf : func a = Except.error e) (he : e.isException = true) :
    runJobsTrack func scl i (a :: rest) =
      ((runJobsTrack func (scl.set i 'F') (i + 1) rest).1,
        (runJobsTrack func (scl.set i 'F') (i + 1) rest).2.map
          (fun l => none :: l)) := by
  simp only [runJobsTrack, track_wrapper_exc func scl i a e hf he]

theorem runJobsTrack_cons_exc_fst {A B : Type} (func : A → Except PyError B)
    (scl : List Char) (i : Nat) (a : A) (rest : List A) (e : PyError)
    (hf : func a = Except.error e) (he : e.isException = true) :
    (runJobsTrack func scl i (a :: rest)).1 =
      (runJobsTrack func (scl.set i 'F') (i + 1) rest).1 := by
  rw [runJobsTrack_cons_exc func scl i a rest e hf he]

theorem runJobsTrack_cons_exc_snd {A B : Type} (func : A → Except PyError B)
    (scl : List Char) (i : Nat) (a : A) (rest : List A) (e : PyError)
    (hf : func a = Except.error e) (he : e.isException = true) :
    (runJobsTrack func scl i (a :: rest)).2 =
      (runJobsTrack func (scl.set i 'F') (i + 1) rest).2.map
        (fun l => none :: l) := by
  rw [runJobsTrack_cons_exc func scl i a rest e hf he]

theorem runJobsTrack_cons_base {A B : Type} (func : A → Except PyError B)
    (scl : List Char) (i : Nat) (a : A) (rest : List A) (e : PyError)
    (hf : func a = Except.error e) (he : e.isException = false) :
    runJobsTrack func scl i (a :: rest) = (scl.set i 'R', Except.error e) := by
  simp only [runJobsTrack, track_wrapper_base func scl i a e hf he]

theorem runJobsTrack_ok {A B : Type} (func : A → Except PyError B)
    (hexc : ∀ a e, func a = Except.error e → e.isException = true) :
    ∀ (args : List A) (scl : List Char) (i : Nat),
      (runJobsTrack func scl i args).2 =
        Except.ok (args.map (fun a => (func a).toOption)) := by
  intro args
  induction args with
  | nil => intro scl i; rfl
  | cons a rest ih =>
    intro scl i
    cases hf : func a with
    | ok v =>
      rw [runJobsTrack_cons_ok_snd func scl i a rest v hf,
        ih (scl.set i 'S') (i + 1)]
      simp [Except.map, hf, Except.toOption]
    | error e =>
      have he := hexc a e hf
      rw [runJobsTrack_cons_exc_snd func scl i a rest e hf he,
        ih (scl.set i 'F') (i + 1)]
      simp [Except.map, hf, Except.toOption]

theorem getD_map_of_lt {α β : Type} (f : α → β) (l : List α) (i : Nat) (d : β)
    (h : i < l.length) : (l.map f).getD i d = f l[i] := by
  rw [List.getD_eq_getElem?_getD, List.getElem?_map, List.getElem?_eq_getElem h]
  rfl

theorem runJobsTrack_scl {A B : Type} (func : A → Except PyError B)
    (hexc : ∀ a e, func a = Except.error e → e.isException = true) :
    ∀ (args : List A) (scl : List Char) (i j : Nat),
      i + args.length ≤ scl.length →
      (runJobsTrack func scl i args).1.getD j 'Q' =
        if i ≤ j ∧ j < i + args.length
        then (args.map (statusOf func)).getD (j - i) 'Q'
        else scl.getD j 'Q' := by
  intro args
  induction args with
  | nil =>
    intro scl i j h
    have hno : ¬ (i ≤ j ∧ j < i + List.length ([] : List A)) := by
      simp
    rw [if_neg hno]
    rfl
  | cons a rest ih =>
    intro scl i j h
    simp only [List.length_cons] at h
    have hilen : i < scl.length := by omega
    have hlen2 : (i + 1) + rest.length ≤ (scl.set i 'S').length := by
      rw [List.length_set]
      omega
    have hlen3 : (i + 1) + rest.length ≤ (scl.set i 'F').length := by
      rw [List.length_set]
      omega
    cases hf : func a with
    | ok v =>
      rw [runJobsTrack_cons_ok_fst func scl i a rest v hf,
        ih (scl.set i 'S') (i + 1) j hlen2]
      simp only [List.length_cons, List.map_cons]
      by_cases h1 : j < i
      · rw [if_neg (by omega), if_neg (by omega),
          getD_set_other scl i j 'S' 'Q' (by omega)]
      · by_cases h2 : j = i
        · subst h2
          rw [if_neg (by omega), if_pos (by omega),
            getD_set_self scl j 'S' 'Q' hilen]
          simp [Nat.sub_self, statusOf, hf]
        · by_cases h3 : j < i + (rest.length + 1)
          · rw [if_pos (by omega), if_pos (by omega)]
            have hsub : j - i = (j - (i + 1)) + 1 := by omega
            rw [hsub, List.getD_cons_succ]
          · rw [if_neg (by omega), if_neg (by omega),
              getD_set_other scl i j 'S' 'Q' (by omega)]
    | error e =>
      have he := hexc a e hf
      rw [runJobsTrack_cons_exc_fst func scl i a rest e hf he,
        ih (scl.set i 'F') (i + 1) j hlen3]
      simp only [List.length_cons, List.map_cons]
      by_cases h1 : j < i
      · rw [if_neg (by omega), if_neg (by omega),
          getD_set_other scl i j 'F' 'Q' (by omega)]
      · by_cases h2 : j = i
        · subst h2
          rw [if_neg (by omega), if_pos (by omega),
            getD_set_self scl j 'F' 'Q' hilen]
          simp [Nat.sub_self, statusOf, hf]
        · by_cases h3 : j < i + (rest.length + 1)
          · rw [if_pos (by omega), if_pos (by omega)]
            have hsub : j - i = (j - (i + 1)) + 1 := by omega
            rw [hsub, List.getD_cons_succ]
          · rw [if_neg (by omega), if_neg (by omega),
              getD_set_other scl i j 'F' 'Q' (by omega)]

/-- C2: in isolating mode (`track_failures=True`), for every argument list
and every user function all of whose raised errors are `Exception`
instances, `start` never propagates a user-function failure: it returns
the full-length result list whose entry for each raising job is `None`
and whose other entries are the user function's return values, and the
recorded `failed_i_jobs` is exactly the list of indices whose invocation
raised (with the matching summary line); the second conjunct records that
the result list has the same length as the argument list. -/
theorem c2_isolating_start {A B : Type} (func : A → Except PyError B)
    (p_args : List A)
    (hexc : ∀ a e, func a = Except.error e → e.isException = true) :
    start_track func p_args =
      Except.ok (p_args.map (fun a => (func a).toOption),
        (List.range p_args.length).filter
          (fun i => (p_args.map (raisesB func)).getD i false),
        failureSummary ((List.range p_args.length).filter
          (fun i => (p_args.map (raisesB func)).getD i false))) ∧
    (p_args.map (fun a => (func a).toOption)).length = p_args.length := by
  have hscan : failedJobsScan p_args.length
      (runJobsTrack func (List.replicate p_args.length 'Q') 0 p_args).1 =
      (List.range p_args.length).filter
        (fun i => (p_args.map (raisesB func)).getD i false) := by
    unfold failedJobsScan
    apply List.filter_congr
    intro i hi
    have hi' : i < p_args.length := List.mem_range.mp hi
    have hlen : 0 + p_args.length ≤ (List.replicate p_args.length 'Q').length := by
      simp
    rw [runJobsTrack_scl func hexc p_args (List.replicate p_args.length 'Q') 0 i hlen,
      if_pos ⟨Nat.zero_le i, by omega⟩, Nat.sub_zero,
      getD_map_of_lt (statusOf func) p_args i 'Q' hi',
      getD_map_of_lt (raisesB func) p_args i false hi']
    cases hfx : func p_args[i] <;> simp [statusOf, raisesB, hfx]
  constructor
  · simp only [start_track, runJobsTrack_ok func hexc p_args, hscan]
  · exact List.length_map p_args _

theorem c2_isolating_start_witness :
    start_track funcSqFail [0, 1, 2] =
      Except.ok ([none, some 1, some 4], [0],
        ["Job 0 was not finished correctly."]) := by
  have h := (c2_isolating_start funcSqFail [0, 1, 2] (fun a e he => by
    by_cases h6 : a % 6 = 0
    · simp only [funcSqFail] at he
      rw [if_pos h6] at he
      injection he with h2
      rw [← h2]
    · simp only [funcSqFail] at he
      rw [if_neg h6] at he
      simp at he)).1
  exact h.trans (by rfl)

theorem runJobsStrict_ok_inv {A B : Type} (func : A → Except PyError B) :
    ∀ (args : List A) (scl : List Char) (i : Nat) (res : List B),
      (runJobsStrict func scl i args).2 = Except.ok res →
      res.map some = args.map (fun a => (func a).toOption) := by
  intro args
  induction args with
  | nil =>
    intro scl i res h
    have h' : Except.ok ([] : List B) = Except.ok res := h
    injection h' with h2
    rw [← h2]
    rfl
  | cons a rest ih =>
    intro scl i res h
    cases hf : func a with
    | error e =>
      rw [runJobsStrict_cons_err func scl i a rest e hf] at h
      simp at h
    | ok v =>
      rw [runJobsStrict_cons_ok_snd func scl i a rest v hf] at h
      cases hin : (runJobsStrict func (scl.set i 'S') (i + 1) rest).2 with
      | error e2 =>
        rw [hin] at h
        simp [Except.map] at h
      | ok l =>
        rw [hin] at h
        simp only [Except.map] at h
        injection h with h2
        rw [← h2]
        have ihl := ih (scl.set i 'S') (i + 1) l hin
        simp [List.map_cons, ihl, hf, Except.toOption]

theorem runJobsTrack_ok_inv {A B : Type} (func : A → Except PyError B) :
    ∀ (args : List A) (scl : List Char) (i : Nat) (res : List (Option B)),
      (runJobsTrack func scl i args).2 = Except.ok res →
      res = args.map (fun a => (func a).toOption) := by
  intro args
  induction args with
  | nil =>
    intro scl i res h
    have h' : Except.ok ([] : List (Option B)) = Except.ok res := h
    injection h' with h2
    rw [← h2]
    rfl
  | cons a rest ih =>
    intro scl i res h
    cases hf : func a with
    | ok v =>
      rw [runJobsTrack_cons_ok_snd func scl i a rest v hf] at h
      cases hin : (runJobsTrack func (scl.set i 'S') (i + 1) rest).2 with
      | error e2 =>
        rw [hin] at h
        simp [Except.map] at h
      | ok l =>
        rw [hin] at h
        simp only [Except.map] at h
        injection h with h2
        rw [← h2, ih (scl.set i 'S') (i + 1) l hin]
        simp [hf, Except.toOption]
    | error e =>
      cases he : e.isException with
      | true =>
        rw [runJobsTrack_cons_exc_snd func scl i a rest e hf he] at h
        cases hin : (runJobsTrack func (scl.set i 'F') (i + 1) rest).2 with
        | error e2 =>
          rw [hin] at h
          simp [Except.map] at h
        | ok l =>
          rw [hin] at h
          simp only [Except.map] at h
          injection h with h2
          rw [← h2, ih (scl.set i 'F') (i + 1) l hin]
          simp [hf, Except.toOption]
      | false =>
        rw [runJobsTrack_cons_base func scl i a rest e hf he] at h
        simp at h

/-- C8: for every argument list on which `start` returns normally, the
returned result list has the same length as the argument list and the
entry at index `i` is the value produced for argument `i` — in strict
mode the user function's return value, in isolating mode that value or
`None` when the job failed — so submission order is preserved in the
result regardless of completion order (the sequential linearisation
collects results in submission order exactly as `pool.starmap` does). -/
theorem c8_results_in_submission_order {A B : Type} (func : A → Except PyError B)
    (p_args : List A) :
    (∀ res, start_strict func p_args = Except.ok res →
      res.length = p_args.length ∧
      res.map some = p_args.map (fun a => (func a).toOption)) ∧
    (∀ res failed summary,
      start_track func p_args = Except.ok (res, failed, summary) →
      res.length = p_args.length ∧
      res = p_args.map (fun a => (func a).toOption)) := by
  constructor
  · intro res h
    have hm := runJobsStrict_ok_inv func p_args
      (List.replicate p_args.length 'Q') 0 res h
    constructor
    · have hl := congrArg List.length hm
      simpa using hl
    · exact hm
  · intro res failed summary h
    cases hin : (runJobsTrack func (List.replicate p_args.length 'Q') 0 p_args).2 with
    | error e =>
      have hst : start_track func p_args = Except.error e := by
        simp only [start_track, hin]
      rw [hst] at h
      simp at h
    | ok l =>
      have hst : start_track func p_args =
          Except.ok (l, failedJobsScan p_args.length
            (runJobsTrack func (List.replicate p_args.length 'Q') 0 p_args).1,
            failureSummary (failedJobsScan p_args.length
              (runJobsTrack func (List.replicate p_args.length 'Q') 0 p_args).1)) := by
        simp only [start_track, hin]
      rw [hst] at h
      injection h with h2
      have hres : l = res := congrArg Prod.fst h2
      have hmap := runJobsTrack_ok_inv func p_args
        (List.replicate p_args.length 'Q') 0 l hin
      rw [← hres, hmap]
      exact ⟨by simp, rfl⟩

theorem c8_results_in_submission_order_witness :
    ([1, 4, 9] : List Nat).map some =
      ([1, 2, 3] : List Nat).map (fun a => (funcSq a).toOption) :=
  ((c8_results_in_submission_order funcSq [1, 2, 3]).1 [1, 4, 9] rfl).2

theorem c1_wrapper_writes_monotonic_witness :
    (function_wrapper funcSq ['Q'] 0 2).writes.head? = some 'R' ∧
    (function_wrapper_track_failure funcSq ['Q'] 0 2).writes.head? = some 'R' :=
  ⟨(c1_wrapper_writes_monotonic funcSq ['Q'] 0 2).1.1,
    (c1_wrapper_writes_monotonic funcSq ['Q'] 0 2).2.1⟩
